import Mathlib

/-!
Verification development for the `python-garbage-collector` repository.

The repository is a CLI demonstration script (`py-GC.py`) driving a host
runtime's built-in collector.  The collector semantics themselves (object
store, reference counter, cycle collector, weak references, finalizer
dispatcher) are specified in the repository's design document but are not
implemented in the source tree, which only calls the opaque built-in; those
components are therefore modelled here from the specification.  The CLI
surface (argument flags, exit-code logic, color handling) and the
`temporary_gc_debug` context manager are embedded directly from the source
of `py-GC.py`.
-/

namespace GCSpec

/-- Modelled from the spec: error taxonomy of §7.  `invalidHandle` — an
operation referenced a handle not present in the store; `resourceExhausted`
— the allocation limit was reached. -/
inductive GCError where
  | invalidHandle
  | resourceExhausted
deriving Repr, DecidableEq

/-- Modelled from the spec: the `FinalizerFault` condition of §7 — a
finalizer raised during reclamation. -/
inductive FinalizerFault where
  | fault
deriving Repr, DecidableEq

/-- Modelled from the spec: an Object of the data model (§3): payload,
ordered outgoing references (as a list of handles), a direct reference
count, and a finalized flag.  The behaviour of the object's finalizer is
abstracted by `finFaults`: `true` means the finalizer raises a fault when
invoked. -/
structure Obj where
  payload : String
  outEdges : List Nat
  refCount : Nat
  finalized : Bool
  finFaults : Bool
deriving Repr, DecidableEq

/-- Modelled from the spec: the state owned by the memory manager — the
Object Store (handle/object association list), the Root Set (name to handle
mapping), the next fresh handle, the log of finalizer invocations (one
entry per invocation, in order), the diagnostic log of caught finalizer
faults, and the store capacity used for the `ResourceExhausted` condition
of §4.1. -/
structure GCState where
  store : List (Nat × Obj)
  roots : List (String × Nat)
  nextId : Nat
  finLog : List Nat
  diagnostics : List Nat
  capacity : Nat
deriving Repr, DecidableEq

/-- The handles currently held by the Object Store. -/
def storeIds (s : GCState) : List Nat :=
  s.store.map Prod.fst

/-- Look up the object bound to a handle in a store. -/
def lookupObj (store : List (Nat × Obj)) (h : Nat) : Option Obj :=
  (store.find? fun p => decide (p.1 = h)).map Prod.snd

/-- Apply a function to the object bound to a handle (identity elsewhere). -/
def updateObj (store : List (Nat × Obj)) (h : Nat) (f : Obj → Obj) :
    List (Nat × Obj) :=
  store.map fun p => if p.1 = h then (p.1, f p.2) else p

/-- Remove a handle's slot from a store. -/
def removeObj (store : List (Nat × Obj)) (h : Nat) : List (Nat × Obj) :=
  store.filter fun p => decide (p.1 ≠ h)

/-- Modelled from the spec: `increment(handle)` of the Reference Counter
(§4.2), performed on edge or root addition. -/
def incrementCount (store : List (Nat × Obj)) (h : Nat) : List (Nat × Obj) :=
  updateObj store h fun o => { o with refCount := o.refCount + 1 }

/-- Modelled from the spec: removing a reclaimed object's outgoing edges
(§4.1 cascade): every target's direct count drops by the number of edges
the reclaimed object held to it. -/
def decAll (store : List (Nat × Obj)) (ts : List Nat) : List (Nat × Obj) :=
  store.map fun p => (p.1, { p.2 with refCount := p.2.refCount - ts.count p.1 })

/-- Whether a handle is present with direct reference count zero. -/
def isZero (store : List (Nat × Obj)) (h : Nat) : Bool :=
  match lookupObj store h with
  | some o => o.refCount == 0
  | none => false

/-- Modelled from the spec: the Finalizer Dispatcher's invocation of a
single finalizer (§4.5): it either completes or raises `FinalizerFault`,
according to the object's abstracted finalizer behaviour. -/
def runFinalizer (o : Obj) : Except FinalizerFault Unit :=
  if o.finFaults then Except.error FinalizerFault.fault else Except.ok ()

/-- Modelled from the spec: one finalizer dispatch at reclamation time
(§4.5).  The invocation is recorded in `finLog`; a raised `FinalizerFault`
is caught here and recorded as a diagnostic event, and never escapes this
step — the function is total and returns the updated state in both
outcomes. -/
def finalizeObj (s : GCState) (h : Nat) (o : Obj) : GCState :=
  { s with
    finLog := s.finLog ++ [h],
    diagnostics :=
      match runFinalizer o with
      | Except.ok _ => s.diagnostics
      | Except.error _ => s.diagnostics ++ [h] }

/-- Modelled from the spec: batch finalization of the objects reclaimed by
a collection pass, dispatching each finalizer in turn (§4.5). -/
def finalizeAll (s : GCState) (objs : List (Nat × Obj)) : GCState :=
  objs.foldl (fun acc p => finalizeObj acc p.1 p.2) s

/-- Placeholder object for total lookups; every use is guarded by a
store-membership test, so it is never observed. -/
def defaultObj : Obj :=
  ⟨"", [], 0, false, false⟩

/-- One step of the immediate reclamation cascade on a handle held by the
store: finalize the object, remove its slot, remove its outgoing edges
(decrementing each target), and report the targets whose count thereby
reached zero. -/
def cascadeStep (s : GCState) (h : Nat) : GCState × List Nat :=
  match lookupObj s.store h with
  | none => (s, [])
  | some o =>
    (finalizeObj { s with store := decAll (removeObj s.store h) o.outEdges } h o,
     o.outEdges.filter fun t => isZero (decAll (removeObj s.store h) o.outEdges) t)

/-- Modelled from the spec: the immediate reference-count reclamation
cascade (§4.1/§4.2): each pending handle still in the store is finalized
and removed, its outgoing edges are removed (decrementing each target's
count), and any target whose count thereby reaches zero joins the pending
work list, until no work remains. -/
def reclaim (s : GCState) (pending : List Nat) : GCState :=
  match pending with
  | [] => s
  | h :: rest =>
    if hin : h ∈ storeIds s then
      reclaim (cascadeStep s h).1 ((cascadeStep s h).2 ++ rest)
    else reclaim s rest
termination_by (s.store.length, pending.length)
decreasing_by
  · apply Prod.Lex.left
    show (cascadeStep s h).1.store.length < s.store.length
    unfold cascadeStep
    obtain ⟨q, hq, hq1⟩ := List.mem_map.mp hin
    cases hfind : lookupObj s.store h with
    | none =>
      exfalso
      unfold lookupObj at hfind
      cases hfound : s.store.find? fun p => decide (p.1 = h) with
      | some q2 => rw [hfound] at hfind; simp at hfind
      | none =>
        have := List.find?_eq_none.mp hfound q hq
        simp [hq1] at this
    | some o =>
      simp only [finalizeObj, decAll, removeObj, List.length_map]
      exact List.length_filter_lt_length_iff_exists.mpr ⟨q, hq, by simp [hq1]⟩
  · exact Prod.Lex.right _ (by simp)

/-- Decrement the direct reference count of the object bound to a handle. -/
def decCount (store : List (Nat × Obj)) (h : Nat) : List (Nat × Obj) :=
  updateObj store h fun o => { o with refCount := o.refCount - 1 }

/-- Modelled from the spec: decrement a handle's count after a strong
reference to it is dropped (§4.2); a post-decrement count of zero is the
sole trigger of the immediate reclamation cascade. -/
def dropRef (s : GCState) (h : Nat) : GCState :=
  if isZero (decCount s.store h) h then
    reclaim { s with store := decCount s.store h } [h]
  else { s with store := decCount s.store h }

/-- Modelled from the spec: `allocate(payload) -> handle` of the Object
Store (§4.1).  A full store yields the `ResourceExhausted` condition; a
fresh handle is otherwise issued, with empty edge set and zero count.  The
`faults` argument fixes the allocated object's abstracted finalizer
behaviour. -/
def allocate (s : GCState) (payload : String) (faults : Bool) :
    Except GCError (Nat × GCState) :=
  if s.capacity ≤ s.store.length then Except.error GCError.resourceExhausted
  else Except.ok (s.nextId,
    { s with
      store := s.store ++ [(s.nextId, ⟨payload, [], 0, false, faults⟩)],
      nextId := s.nextId + 1 })

/-- Modelled from the spec: `add_edge(from, to)` of the Object Store
(§4.1): record the outgoing strong edge and increment the target's direct
count (§4.2).  An unknown handle signals `InvalidHandle`. -/
def add_edge (s : GCState) (f t : Nat) : Except GCError GCState :=
  if f ∈ storeIds s ∧ t ∈ storeIds s then
    Except.ok { s with store :=
      (incrementCount
        (updateObj s.store f fun o => { o with outEdges := o.outEdges ++ [t] }) t) }
  else Except.error GCError.invalidHandle

/-- Modelled from the spec: `remove_edge(from, to)` of the Object Store
(§4.1): drop one strong edge, decrement the target, and trigger the
immediate reclamation cascade if the count reaches zero. -/
def remove_edge (s : GCState) (f t : Nat) : Except GCError GCState :=
  match lookupObj s.store f with
  | none => Except.error GCError.invalidHandle
  | some o =>
    if t ∈ o.outEdges then
      Except.ok (dropRef
        { s with store :=
            updateObj s.store f fun ob => { ob with outEdges := ob.outEdges.erase t } }
        t)
    else Except.error GCError.invalidHandle

/-- The handle currently bound to a root name, if any. -/
def root_lookup (s : GCState) (name : String) : Option Nat :=
  (s.roots.find? fun p => decide (p.1 = name)).map Prod.snd

/-- Modelled from the spec: `root_unbind(name)` of the Object Store (§4.1):
the binding leaves the Root Set and the target loses one strong reference,
cascading if its count reaches zero. -/
def root_unbind (s : GCState) (name : String) : Except GCError GCState :=
  match root_lookup s name with
  | none => Except.error GCError.invalidHandle
  | some h =>
    Except.ok (dropRef { s with roots := s.roots.filter fun p => decide (p.1 ≠ name) } h)

/-- Modelled from the spec: `root_bind(name, handle)` of the Object Store
(§4.1): binding an unknown handle signals `InvalidHandle`; reassigning an
already-bound name first drops the old binding (§3: bindings leave on
reassignment), then the new target gains a strong reference. -/
def root_bind (s : GCState) (name : String) (h : Nat) : Except GCError GCState :=
  if h ∈ storeIds s then
    let s0 :=
      match root_lookup s name with
      | none => s
      | some old =>
        dropRef { s with roots := s.roots.filter fun p => decide (p.1 ≠ name) } old
    if h ∈ storeIds s0 then
      Except.ok { s0 with
        roots := s0.roots ++ [(name, h)],
        store := incrementCount s0.store h }
    else Except.error GCError.invalidHandle
  else Except.error GCError.invalidHandle

/-- Modelled from the spec: `weak_ref(handle) -> weak_handle` of the Weak
Reference Table (§4.4).  A weak handle is the bare identity and never
contributes to the count. -/
def weak_ref (h : Nat) : Nat := h

/-- Modelled from the spec: `weak_resolve(weak_handle)` of the Weak
Reference Table (§4.4): resolves to the handle while the Object Store still
holds the identity and to none otherwise, with never-allocated and
reclaimed identities treated identically; it never throws. -/
def weak_resolve (s : GCState) (w : Nat) : Option Nat :=
  if w ∈ storeIds s then some w else none

/-- Worklist computation of the handles reachable from a seed list by
following outgoing strong edges through the store: pop a handle, skip it if
already seen or absent from the store, otherwise mark it seen and push its
outgoing edges. -/
def reachAux (store : List (Nat × Obj)) (todo seen : List Nat) : List Nat :=
  match todo with
  | [] => seen
  | h :: rest =>
    if hs : h ∈ seen then reachAux store rest seen
    else if hin : h ∈ store.map Prod.fst then
      reachAux store (((lookupObj store h).getD defaultObj).outEdges ++ rest) (h :: seen)
    else reachAux store rest seen
termination_by
  (((store.map Prod.fst).toFinset \ seen.toFinset).card, todo.length)
decreasing_by
  · exact Prod.Lex.right _ (by simp)
  · apply Prod.Lex.left
    have hmemF : h ∈ (store.map Prod.fst).toFinset \ seen.toFinset := by
      simp only [Finset.mem_sdiff, List.mem_toFinset]
      exact ⟨hin, hs⟩
    calc ((store.map Prod.fst).toFinset \ (h :: seen).toFinset).card
        = (((store.map Prod.fst).toFinset \ seen.toFinset).erase h).card := by
          rw [List.toFinset_cons, Finset.sdiff_insert]
      _ < ((store.map Prod.fst).toFinset \ seen.toFinset).card :=
          Finset.card_erase_lt_of_mem hmemF
  · exact Prod.Lex.right _ (by simp)

/-- Modelled from the spec: the set of handles reachable from the Root Set
following strong edges only (§3), as computed by the Cycle Collector's
scan. -/
def reachableIds (s : GCState) : List Nat :=
  reachAux s.store (s.roots.map Prod.snd) []

/-- Modelled from the spec: the number of strong edges (from roots or other
live objects) pointing at a handle — the quantity the direct reference
count must equal (§3). -/
def countStrongRefs (roots : List (String × Nat)) (objs : List (Nat × Obj))
    (h : Nat) : Nat :=
  (roots.filter fun r => decide (r.2 = h)).length +
    (objs.map fun p => p.2.outEdges.count h).sum

/-- The store entries a Cycle Collector pass reclaims: those unreachable
from the Root Set following strong edges (§3, §4.3). -/
def deadObjs (s : GCState) : List (Nat × Obj) :=
  s.store.filter fun p => decide (p.1 ∉ reachableIds s)

/-- The store entries a Cycle Collector pass retains: those reachable from
the Root Set following strong edges. -/
def liveObjs (s : GCState) : List (Nat × Obj) :=
  s.store.filter fun p => decide (p.1 ∈ reachableIds s)

/-- Modelled from the spec: a Cycle Collector pass (§4.3): every object
unreachable from the Root Set following strong edges is finalized and
removed from the store (§3: an object is reclaimed iff unreachable from the
Root Set); surviving objects' counts are restored to the number of
remaining strong edges.  Returns the count of objects reclaimed this
pass. -/
def collect (s : GCState) : Nat × GCState :=
  ((deadObjs s).length,
    { finalizeAll s (deadObjs s) with
      store := (liveObjs s).map fun p =>
        (p.1, { p.2 with refCount := countStrongRefs s.roots (liveObjs s) p.1 }) })

/-- Modelled from the spec: the programmatic operations the core exposes to
its CLI collaborator (§6). -/
inductive Op where
  | alloc (payload : String) (faults : Bool)
  | addEdge (f t : Nat)
  | removeEdge (f t : Nat)
  | rootBind (name : String) (h : Nat)
  | rootUnbind (name : String)
  | collectPass
deriving Repr, DecidableEq

/-- Run one operation against the state; an operation that signals an
explicit failure (`InvalidHandle`, `ResourceExhausted`) returns it to the
caller and leaves the state unchanged (§7). -/
def runOp (s : GCState) : Op → GCState
  | Op.alloc p fl =>
    match allocate s p fl with
    | Except.ok r => r.2
    | Except.error _ => s
  | Op.addEdge f t =>
    match add_edge s f t with
    | Except.ok s1 => s1
    | Except.error _ => s
  | Op.removeEdge f t =>
    match remove_edge s f t with
    | Except.ok s1 => s1
    | Except.error _ => s
  | Op.rootBind name h =>
    match root_bind s name h with
    | Except.ok s1 => s1
    | Except.error _ => s
  | Op.rootUnbind name =>
    match root_unbind s name with
    | Except.ok s1 => s1
    | Except.error _ => s
  | Op.collectPass => (collect s).2

/-- Run a sequence of operations from a starting state. -/
def run (s : GCState) (ops : List Op) : GCState :=
  ops.foldl runOp s

/-- The empty initial state of the memory manager with a given capacity. -/
def initState (cap : Nat) : GCState :=
  ⟨[], [], 0, [], [], cap⟩

/-- Modelled from the spec: reachability from the Root Set following strong
edges only (§3): a handle held by the store and bound by a root is
reachable, and so is a store-held target of an outgoing edge of a reachable
object. -/
inductive RootReachable (s : GCState) : Nat → Prop where
  | root (name : String) (h : Nat) :
      (name, h) ∈ s.roots → h ∈ storeIds s → RootReachable s h
  | step (h t : Nat) (o : Obj) :
      RootReachable s h → lookupObj s.store h = some o →
      t ∈ o.outEdges → t ∈ storeIds s → RootReachable s t

/-- Structural well-formedness maintained by every operation: store handles
are distinct and below the fresh-handle counter, and the finalizer log
holds distinct handles of objects no longer in the store — so a handle is
finalized at most once, ever (§4.5). -/
structure WF (s : GCState) : Prop where
  nodupIds : (storeIds s).Nodup
  idsLt : ∀ h ∈ storeIds s, h < s.nextId
  finLt : ∀ h ∈ s.finLog, h < s.nextId
  finDead : ∀ h ∈ s.finLog, h ∉ storeIds s
  finNodup : s.finLog.Nodup

end GCSpec

namespace PyGC

/-- The three values of the `--color` CLI choice in `py-GC.py`. -/
inductive ColorChoice where
  | auto
  | always
  | never
deriving Repr, DecidableEq

/-- The parsed argument namespace built by `argparse` in `main` of
`py-GC.py`: `--cycles` (int, default 1), `--saveall`, `--no-debug`,
`--break-cycles`, `--weakref-demo`, `--stats` (store-true flags), and
`--color` (choice, default auto). -/
structure Args where
  cycles : Int
  saveall : Bool
  no_debug : Bool
  break_cycles : Bool
  weakref_demo : Bool
  stats : Bool
  color : ColorChoice
deriving Repr, DecidableEq

/-- A command-line flag accepted by the `argparse` parser of `py-GC.py`:
its option string and whether it consumes a value. -/
structure FlagSpec where
  name : String
  takesValue : Bool
deriving Repr, DecidableEq

/-- The flags registered on the `argparse` parser in `main` of `py-GC.py`,
in registration order. -/
def cliFlags : List FlagSpec :=
  [⟨"--cycles", true⟩, ⟨"--saveall", false⟩, ⟨"--no-debug", false⟩,
   ⟨"--break-cycles", false⟩, ⟨"--weakref-demo", false⟩, ⟨"--stats", false⟩,
   ⟨"--color", true⟩]

/-- The process exit status of `main` in `py-GC.py` as a function of the
parsed arguments: the `--stats` branch returns before any validation and
the process exits 0; otherwise `parser.error` (exit status 2) rejects
`--cycles < 1` and then the `--saveall` with `--no-debug` conflict; a run
that passes validation returns normally and the process exits 0. -/
def mainExitCode (a : Args) : Nat :=
  if a.stats then 0
  else if a.cycles < 1 then 2
  else if a.no_debug && a.saveall then 2
  else 0

/-- The `COLOR_ENABLED` computation of `main` in `py-GC.py`: `--color
always` enables color; otherwise `--color never` or a set `NO_COLOR`
environment variable disables it; otherwise color follows whether stdout is
a tty. -/
def computeColorEnabled (choice : ColorChoice) (noColorEnv tty : Bool) : Bool :=
  if choice = ColorChoice.always then true
  else if choice = ColorChoice.never ∨ noColorEnv = true then false
  else tty

/-- The `temporary_gc_debug` context manager of `py-GC.py`, embedded by
state passing over the host collector's debug flags: it saves the current
flags, sets the requested ones, runs the body (which observes the set flags
and may itself change them), and in a `finally` clause restores the saved
flags whether the body returned or raised; a raised exception is then
re-raised. -/
def temporary_gc_debug {ε : Type} (flags : Nat)
    (body : Nat → Except ε Unit × Nat) (debugFlags : Nat) :
    Except ε Unit × Nat :=
  let prev := debugFlags
  let afterSet := flags
  let bodyOutcome := body afterSet
  (bodyOutcome.1, prev)

end PyGC


namespace GCSpec

theorem map_fst_updateObj (st : List (Nat × Obj)) (h : Nat) (f : Obj → Obj) :
    (updateObj st h f).map Prod.fst = st.map Prod.fst := by
  unfold updateObj
  rw [List.map_map]
  apply List.map_congr_left
  intro p _
  by_cases hp : p.1 = h <;> simp [hp]

theorem map_fst_decAll (st : List (Nat × Obj)) (ts : List Nat) :
    (decAll st ts).map Prod.fst = st.map Prod.fst := by
  unfold decAll
  rw [List.map_map]
  rfl

theorem map_fst_decCount (st : List (Nat × Obj)) (h : Nat) :
    (decCount st h).map Prod.fst = st.map Prod.fst :=
  map_fst_updateObj st h _

theorem map_fst_incrementCount (st : List (Nat × Obj)) (h : Nat) :
    (incrementCount st h).map Prod.fst = st.map Prod.fst :=
  map_fst_updateObj st h _

theorem map_fst_removeObj_sublist (st : List (Nat × Obj)) (h : Nat) :
    List.Sublist ((removeObj st h).map Prod.fst) (st.map Prod.fst) :=
  List.Sublist.map Prod.fst (List.filter_sublist st)

theorem not_mem_map_fst_removeObj (st : List (Nat × Obj)) (h : Nat) :
    h ∉ (removeObj st h).map Prod.fst := by
  intro hmem
  obtain ⟨p, hp, hph⟩ := List.mem_map.mp hmem
  have := (List.mem_filter.mp hp).2
  simp [hph] at this

theorem mem_of_lookupObj {st : List (Nat × Obj)} {h : Nat} {o : Obj}
    (hl : lookupObj st h = some o) : (h, o) ∈ st := by
  unfold lookupObj at hl
  cases hfind : st.find? fun p => decide (p.1 = h) with
  | none => rw [hfind] at hl; simp at hl
  | some q =>
    rw [hfind] at hl
    simp at hl
    have hqmem := List.mem_of_find?_eq_some hfind
    have hqh : q.1 = h := by simpa using List.find?_some hfind
    obtain ⟨q1, q2⟩ := q
    cases hqh
    cases hl
    exact hqmem

theorem mem_map_fst_of_lookupObj {st : List (Nat × Obj)} {h : Nat} {o : Obj}
    (hl : lookupObj st h = some o) : h ∈ st.map Prod.fst :=
  List.mem_map.mpr ⟨(h, o), mem_of_lookupObj hl, rfl⟩

theorem not_mem_of_lookupObj_none {st : List (Nat × Obj)} {h : Nat}
    (hl : lookupObj st h = none) : h ∉ st.map Prod.fst := by
  intro hmem
  obtain ⟨p, hp, hph⟩ := List.mem_map.mp hmem
  unfold lookupObj at hl
  cases hfind : st.find? fun p2 => decide (p2.1 = h) with
  | some q => rw [hfind] at hl; simp at hl
  | none =>
    have := List.find?_eq_none.mp hfind p hp
    simp [hph] at this

theorem finalizeObj_store (s : GCState) (h : Nat) (o : Obj) :
    (finalizeObj s h o).store = s.store := rfl

theorem finalizeObj_nextId (s : GCState) (h : Nat) (o : Obj) :
    (finalizeObj s h o).nextId = s.nextId := rfl

theorem finalizeObj_roots (s : GCState) (h : Nat) (o : Obj) :
    (finalizeObj s h o).roots = s.roots := rfl

theorem finalizeObj_finLog (s : GCState) (h : Nat) (o : Obj) :
    (finalizeObj s h o).finLog = s.finLog ++ [h] := rfl

theorem finalizeAll_store (s : GCState) (objs : List (Nat × Obj)) :
    (finalizeAll s objs).store = s.store := by
  induction objs generalizing s with
  | nil => rfl
  | cons p ps ih => exact (ih (finalizeObj s p.1 p.2)).trans rfl

theorem finalizeAll_nextId (s : GCState) (objs : List (Nat × Obj)) :
    (finalizeAll s objs).nextId = s.nextId := by
  induction objs generalizing s with
  | nil => rfl
  | cons p ps ih => exact (ih (finalizeObj s p.1 p.2)).trans rfl

theorem finalizeAll_roots (s : GCState) (objs : List (Nat × Obj)) :
    (finalizeAll s objs).roots = s.roots := by
  induction objs generalizing s with
  | nil => rfl
  | cons p ps ih => exact (ih (finalizeObj s p.1 p.2)).trans rfl

theorem finalizeAll_finLog (s : GCState) (objs : List (Nat × Obj)) :
    (finalizeAll s objs).finLog = s.finLog ++ objs.map Prod.fst := by
  induction objs generalizing s with
  | nil => simp [finalizeAll]
  | cons p ps ih =>
    show (finalizeAll (finalizeObj s p.1 p.2) ps).finLog = _
    rw [ih, finalizeObj_finLog, List.map_cons, List.append_assoc]
    rfl

theorem finalizeObj_diagnostics (s : GCState) (h : Nat) (o : Obj) :
    (finalizeObj s h o).diagnostics =
      if o.finFaults then s.diagnostics ++ [h] else s.diagnostics := by
  unfold finalizeObj runFinalizer
  by_cases hf : o.finFaults <;> simp [hf]

theorem finalizeAll_diagnostics (s : GCState) (objs : List (Nat × Obj)) :
    (finalizeAll s objs).diagnostics =
      s.diagnostics ++ (objs.filter fun p => p.2.finFaults).map Prod.fst := by
  induction objs generalizing s with
  | nil => simp [finalizeAll]
  | cons p ps ih =>
    show (finalizeAll (finalizeObj s p.1 p.2) ps).diagnostics = _
    rw [ih, finalizeObj_diagnostics]
    by_cases hf : p.2.finFaults <;>
      simp [hf, List.filter_cons, List.append_assoc]

end GCSpec

namespace GCSpec

theorem lookupObj_some_of_mem {st : List (Nat × Obj)} {h : Nat}
    (hin : h ∈ st.map Prod.fst) : ∃ o, lookupObj st h = some o := by
  cases hfind : lookupObj st h with
  | some o => exact ⟨o, rfl⟩
  | none => exact absurd hin (not_mem_of_lookupObj_none hfind)

theorem cascadeStep_nextId (s : GCState) (h : Nat) :
    (cascadeStep s h).1.nextId = s.nextId := by
  unfold cascadeStep
  cases hfind : lookupObj s.store h <;> rfl

theorem cascadeStep_roots (s : GCState) (h : Nat) :
    (cascadeStep s h).1.roots = s.roots := by
  unfold cascadeStep
  cases hfind : lookupObj s.store h <;> rfl

theorem storeIds_cascadeStep_subset (s : GCState) (h : Nat) :
    storeIds (cascadeStep s h).1 ⊆ storeIds s := by
  unfold cascadeStep
  cases hfind : lookupObj s.store h with
  | none => exact fun x hx => hx
  | some o =>
    intro x hx
    have hx2 : x ∈ (decAll (removeObj s.store h) o.outEdges).map Prod.fst := hx
    rw [map_fst_decAll] at hx2
    exact (map_fst_removeObj_sublist s.store h).subset hx2

theorem WF_cascadeStep (s : GCState) (h : Nat) (hin : h ∈ storeIds s)
    (hw : WF s) : WF (cascadeStep s h).1 := by
  unfold cascadeStep
  cases hfind : lookupObj s.store h with
  | none => exact hw
  | some o =>
    have hsub : (decAll (removeObj s.store h) o.outEdges).map Prod.fst ⊆ storeIds s := by
      rw [map_fst_decAll]
      exact (map_fst_removeObj_sublist s.store h).subset
    have hnodup2 : ((decAll (removeObj s.store h) o.outEdges).map Prod.fst).Nodup := by
      rw [map_fst_decAll]
      exact hw.nodupIds.sublist (map_fst_removeObj_sublist s.store h)
    have hnot : h ∉ (decAll (removeObj s.store h) o.outEdges).map Prod.fst := by
      rw [map_fst_decAll]
      exact not_mem_map_fst_removeObj s.store h
    constructor
    · exact hnodup2
    · intro x hx
      exact hw.idsLt x (hsub hx)
    · intro x hx
      rcases List.mem_append.mp hx with hx1 | hx1
      · exact hw.finLt x hx1
      · rw [List.mem_singleton.mp hx1]
        exact hw.idsLt h hin
    · intro x hx
      rcases List.mem_append.mp hx with hx1 | hx1
      · intro hx2
        exact hw.finDead x hx1 (hsub hx2)
      · rw [List.mem_singleton.mp hx1]
        exact hnot
    · show (s.finLog ++ [h]).Nodup
      rw [List.nodup_append]
      refine ⟨hw.finNodup, List.nodup_singleton h, ?_⟩
      intro x hx1 hx2
      rw [List.mem_singleton.mp hx2] at hx1
      exact hw.finDead h hx1 hin

theorem reclaim_nextId (s : GCState) (pending : List Nat) :
    (reclaim s pending).nextId = s.nextId := by
  induction s, pending using reclaim.induct with
  | case1 s => rw [reclaim]
  | case2 s h rest hin ih =>
    rw [reclaim, dif_pos hin]
    exact ih.trans (cascadeStep_nextId s h)
  | case3 s h rest hin ih =>
    rw [reclaim, dif_neg hin]
    exact ih

theorem reclaim_roots (s : GCState) (pending : List Nat) :
    (reclaim s pending).roots = s.roots := by
  induction s, pending using reclaim.induct with
  | case1 s => rw [reclaim]
  | case2 s h rest hin ih =>
    rw [reclaim, dif_pos hin]
    exact ih.trans (cascadeStep_roots s h)
  | case3 s h rest hin ih =>
    rw [reclaim, dif_neg hin]
    exact ih

theorem storeIds_reclaim_subset (s : GCState) (pending : List Nat) :
    storeIds (reclaim s pending) ⊆ storeIds s := by
  induction s, pending using reclaim.induct with
  | case1 s => rw [reclaim]; exact fun x hx => hx
  | case2 s h rest hin ih =>
    rw [reclaim, dif_pos hin]
    exact ih.trans (storeIds_cascadeStep_subset s h)
  | case3 s h rest hin ih =>
    rw [reclaim, dif_neg hin]
    exact ih

theorem WF_mk_store {s : GCState} (hw : WF s) {st : List (Nat × Obj)}
    (hids : st.map Prod.fst = s.store.map Prod.fst) :
    WF { s with store := st } := by
  constructor
  · show (st.map Prod.fst).Nodup
    rw [hids]; exact hw.nodupIds
  · show ∀ h ∈ st.map Prod.fst, h < s.nextId
    rw [hids]; exact hw.idsLt
  · exact hw.finLt
  · show ∀ h ∈ s.finLog, h ∉ st.map Prod.fst
    rw [hids]; exact hw.finDead
  · exact hw.finNodup

theorem WF_set_roots {s : GCState} (hw : WF s) (rts : List (String × Nat)) :
    WF { s with roots := rts } := by
  constructor
  · exact hw.nodupIds
  · exact hw.idsLt
  · exact hw.finLt
  · exact hw.finDead
  · exact hw.finNodup

theorem WF_reclaim (s : GCState) (pending : List Nat) :
    WF s → WF (reclaim s pending) := by
  induction s, pending using reclaim.induct with
  | case1 s => intro hw; rw [reclaim]; exact hw
  | case2 s h rest hin ih =>
    intro hw
    rw [reclaim, dif_pos hin]
    exact ih (WF_cascadeStep s h hin hw)
  | case3 s h rest hin ih =>
    intro hw
    rw [reclaim, dif_neg hin]
    exact ih hw

theorem dropRef_nextId (s : GCState) (h : Nat) :
    (dropRef s h).nextId = s.nextId := by
  unfold dropRef
  split
  · exact reclaim_nextId _ _
  · rfl

theorem storeIds_dropRef_subset (s : GCState) (h : Nat) :
    storeIds (dropRef s h) ⊆ storeIds s := by
  unfold dropRef
  split
  · intro x hx
    have hx2 := storeIds_reclaim_subset _ _ hx
    show x ∈ storeIds s
    have : storeIds { s with store := decCount s.store h } = storeIds s := by
      show (decCount s.store h).map Prod.fst = _
      rw [map_fst_decCount]; rfl
    rw [this] at hx2
    exact hx2
  · intro x hx
    have : storeIds { s with store := decCount s.store h } = storeIds s := by
      show (decCount s.store h).map Prod.fst = _
      rw [map_fst_decCount]; rfl
    rw [this] at hx
    exact hx

theorem WF_dropRef (s : GCState) (h : Nat) (hw : WF s) : WF (dropRef s h) := by
  unfold dropRef
  split
  · exact WF_reclaim _ _ (WF_mk_store hw (map_fst_decCount s.store h))
  · exact WF_mk_store hw (map_fst_decCount s.store h)

end GCSpec

namespace GCSpec

theorem collect_store (s : GCState) :
    (collect s).2.store = (liveObjs s).map fun p =>
      (p.1, { p.2 with refCount := countStrongRefs s.roots (liveObjs s) p.1 }) := rfl

theorem collect_count (s : GCState) : (collect s).1 = (deadObjs s).length := rfl

theorem collect_finLog (s : GCState) :
    (collect s).2.finLog = s.finLog ++ (deadObjs s).map Prod.fst := by
  show (finalizeAll s (deadObjs s)).finLog = _
  exact finalizeAll_finLog s (deadObjs s)

theorem collect_diagnostics (s : GCState) :
    (collect s).2.diagnostics =
      s.diagnostics ++ ((deadObjs s).filter fun p => p.2.finFaults).map Prod.fst := by
  show (finalizeAll s (deadObjs s)).diagnostics = _
  exact finalizeAll_diagnostics s (deadObjs s)

theorem collect_nextId (s : GCState) : (collect s).2.nextId = s.nextId := by
  show (finalizeAll s (deadObjs s)).nextId = _
  exact finalizeAll_nextId s (deadObjs s)

theorem storeIds_collect (s : GCState) :
    storeIds (collect s).2 = (liveObjs s).map Prod.fst := by
  show ((liveObjs s).map _).map Prod.fst = _
  rw [List.map_map]
  rfl

theorem map_fst_liveObjs_sublist (s : GCState) :
    List.Sublist ((liveObjs s).map Prod.fst) (storeIds s) :=
  List.Sublist.map Prod.fst (List.filter_sublist s.store)

theorem map_fst_deadObjs_sublist (s : GCState) :
    List.Sublist ((deadObjs s).map Prod.fst) (storeIds s) :=
  List.Sublist.map Prod.fst (List.filter_sublist s.store)

theorem mem_liveObjs_ids_reachable {s : GCState} {x : Nat}
    (hx : x ∈ (liveObjs s).map Prod.fst) : x ∈ reachableIds s := by
  obtain ⟨p, hp, hpx⟩ := List.mem_map.mp hx
  have := (List.mem_filter.mp hp).2
  rw [hpx] at this
  simpa using this

theorem mem_deadObjs_ids_unreachable {s : GCState} {x : Nat}
    (hx : x ∈ (deadObjs s).map Prod.fst) : x ∉ reachableIds s := by
  obtain ⟨p, hp, hpx⟩ := List.mem_map.mp hx
  have := (List.mem_filter.mp hp).2
  rw [hpx] at this
  simpa using this

theorem storeIds_collect_subset (s : GCState) :
    storeIds (collect s).2 ⊆ storeIds s := by
  rw [storeIds_collect]
  exact (map_fst_liveObjs_sublist s).subset

theorem WF_collect (s : GCState) (hw : WF s) : WF (collect s).2 := by
  constructor
  · rw [storeIds_collect]
    exact hw.nodupIds.sublist (map_fst_liveObjs_sublist s)
  · intro x hx
    rw [collect_nextId]
    exact hw.idsLt x (storeIds_collect_subset s hx)
  · intro x hx
    rw [collect_finLog] at hx
    rw [collect_nextId]
    rcases List.mem_append.mp hx with hx1 | hx1
    · exact hw.finLt x hx1
    · exact hw.idsLt x ((map_fst_deadObjs_sublist s).subset hx1)
  · intro x hx
    rw [collect_finLog] at hx
    rcases List.mem_append.mp hx with hx1 | hx1
    · intro hx2
      exact hw.finDead x hx1 (storeIds_collect_subset s hx2)
    · intro hx2
      rw [storeIds_collect] at hx2
      exact mem_deadObjs_ids_unreachable hx1 (mem_liveObjs_ids_reachable hx2)
  · rw [collect_finLog, List.nodup_append]
    refine ⟨hw.finNodup, hw.nodupIds.sublist (map_fst_deadObjs_sublist s), ?_⟩
    intro x hx1 hx2
    exact hw.finDead x hx1 ((map_fst_deadObjs_sublist s).subset hx2)

theorem WF_initState (cap : Nat) : WF (initState cap) := by
  constructor <;> simp [initState, storeIds]

end GCSpec

namespace GCSpec

theorem storeIds_withStore (s : GCState) (st : List (Nat × Obj)) : storeIds { s with store := st } = st.map Prod.fst := rfl

theorem storeIds_allocState (s : GCState) (o : Obj) : storeIds { s with store := s.store ++ [(s.nextId, o)], nextId := s.nextId + 1 } = storeIds s ++ [s.nextId] := by
  show (s.store ++ [(s.nextId, o)]).map Prod.fst = _
  rw [List.map_append]
  rfl

theorem WF_allocState {s : GCState} (hw : WF s) (o : Obj) : WF { s with store := s.store ++ [(s.nextId, o)], nextId := s.nextId + 1 } := by
  constructor
  · rw [storeIds_allocState, List.nodup_append]
    refine ⟨hw.nodupIds, List.nodup_singleton _, ?_⟩
    intro x hx1 hx2
    rw [List.mem_singleton.mp hx2] at hx1
    exact absurd (hw.idsLt _ hx1) (lt_irrefl _)
  · rw [storeIds_allocState]
    intro x hx
    rcases List.mem_append.mp hx with hx1 | hx1
    · exact Nat.lt_succ_of_lt (hw.idsLt x hx1)
    · rw [List.mem_singleton.mp hx1]
      exact Nat.lt_succ_self _
  · intro x hx
    exact Nat.lt_succ_of_lt (hw.finLt x hx)
  · rw [storeIds_allocState]
    intro x hx hmem
    rcases List.mem_append.mp hmem with hx1 | hx1
    · exact hw.finDead x hx hx1
    · rw [List.mem_singleton.mp hx1] at hx
      exact absurd (hw.finLt _ hx) (lt_irrefl _)
  · exact hw.finNodup

theorem WF_bindFinish {s0 : GCState} (hw : WF s0) (name : String) (h : Nat) : WF { s0 with roots := s0.roots ++ [(name, h)], store := incrementCount s0.store h } :=
  WF_set_roots (WF_mk_store hw (map_fst_incrementCount s0.store h)) _

theorem runOp_preserves (s : GCState) (op : Op) :
    s.nextId ≤ (runOp s op).nextId ∧
    (∀ h, h < s.nextId → h ∉ storeIds s → h ∉ storeIds (runOp s op)) ∧
    (WF s → WF (runOp s op)) := by
  cases op with
  | alloc p fl =>
    simp only [runOp]
    unfold allocate
    by_cases hc : s.capacity ≤ s.store.length
    · simp only [if_pos hc]
      exact ⟨le_refl _, fun h _ hd => hd, fun hw => hw⟩
    · simp only [if_neg hc]
      refine ⟨Nat.le_succ _, ?_, fun hw => WF_allocState hw _⟩
      intro h hlt hdead hmem
      rw [storeIds_allocState] at hmem
      rcases List.mem_append.mp hmem with hx | hx
      · exact hdead hx
      · rw [List.mem_singleton.mp hx] at hlt
        exact absurd hlt (lt_irrefl _)
  | addEdge f t =>
    simp only [runOp]
    unfold add_edge
    by_cases hc : f ∈ storeIds s ∧ t ∈ storeIds s
    · simp only [if_pos hc]
      refine ⟨le_refl _, ?_, ?_⟩
      · intro h hlt hdead hmem
        simp only [storeIds] at hmem
        rw [map_fst_incrementCount, map_fst_updateObj] at hmem
        exact hdead hmem
      · intro hw
        exact WF_mk_store hw (by rw [map_fst_incrementCount, map_fst_updateObj])
    · simp only [if_neg hc]
      exact ⟨le_refl _, fun h _ hd => hd, fun hw => hw⟩
  | removeEdge f t =>
    simp only [runOp]
    unfold remove_edge
    cases hl : lookupObj s.store f with
    | none => exact ⟨le_refl _, fun h _ hd => hd, fun hw => hw⟩
    | some o =>
      by_cases ht : t ∈ o.outEdges
      · simp only [if_pos ht]
        refine ⟨?_, ?_, ?_⟩
        · rw [dropRef_nextId]
        · intro h hlt hdead hmem
          have h2 := storeIds_dropRef_subset _ t hmem
          simp only [storeIds] at h2
          rw [map_fst_updateObj] at h2
          exact hdead h2
        · intro hw
          exact WF_dropRef _ t (WF_mk_store hw (map_fst_updateObj s.store f _))
      · simp only [if_neg ht]
        exact ⟨le_refl _, fun h _ hd => hd, fun hw => hw⟩
  | rootBind name h =>
    simp only [runOp]
    unfold root_bind
    by_cases hh : h ∈ storeIds s
    · simp only [if_pos hh]
      cases hrl : root_lookup s name with
      | none =>
        simp only
        by_cases hh0 : h ∈ storeIds s
        · simp only [if_pos hh0]
          refine ⟨le_refl _, ?_, ?_⟩
          · intro x hlt hdead hmem
            simp only [storeIds] at hmem
            rw [map_fst_incrementCount] at hmem
            exact hdead hmem
          · intro hw
            exact WF_bindFinish hw name h
        · simp only [if_neg hh0]
          exact ⟨le_refl _, fun x _ hd => hd, fun hw => hw⟩
      | some old =>
        simp only
        by_cases hh0 : h ∈ storeIds (dropRef { s with roots := s.roots.filter fun p => decide (p.1 ≠ name) } old)
        · simp only [if_pos hh0]
          refine ⟨?_, ?_, ?_⟩
          · exact le_of_eq (dropRef_nextId { s with roots := s.roots.filter fun p => decide (p.1 ≠ name) } old).symm
          · intro x hlt hdead hmem
            simp only [storeIds] at hmem
            rw [map_fst_incrementCount] at hmem
            have h2 := storeIds_dropRef_subset { s with roots := s.roots.filter fun p => decide (p.1 ≠ name) } old hmem
            exact hdead h2
          · intro hw
            exact WF_bindFinish (WF_dropRef _ old (WF_set_roots hw _)) name h
        · simp only [if_neg hh0]
          exact ⟨le_refl _, fun x _ hd => hd, fun hw => hw⟩
    · simp only [if_neg hh]
      exact ⟨le_refl _, fun x _ hd => hd, fun hw => hw⟩
  | rootUnbind name =>
    simp only [runOp]
    unfold root_unbind
    cases hrl : root_lookup s name with
    | none => exact ⟨le_refl _, fun x _ hd => hd, fun hw => hw⟩
    | some h =>
      refine ⟨?_, ?_, ?_⟩
      · exact le_of_eq (dropRef_nextId { s with roots := s.roots.filter fun p => decide (p.1 ≠ name) } h).symm
      · intro x hlt hdead hmem
        exact hdead (storeIds_dropRef_subset { s with roots := s.roots.filter fun p => decide (p.1 ≠ name) } h hmem)
      · intro hw
        exact WF_dropRef _ h (WF_set_roots hw _)
  | collectPass =>
    refine ⟨?_, ?_, ?_⟩
    · exact le_of_eq (collect_nextId s).symm
    · intro x hlt hdead hmem
      exact hdead (storeIds_collect_subset s hmem)
    · intro hw
      exact WF_collect s hw

theorem WF_run (s : GCState) (ops : List Op) (hw : WF s) : WF (run s ops) := by
  induction ops generalizing s with
  | nil => exact hw
  | cons op ops ih => exact ih (runOp s op) ((runOp_preserves s op).2.2 hw)

theorem dead_stays_dead_run (s : GCState) (ops : List Op) (h : Nat)
    (hlt : h < s.nextId) (hdead : h ∉ storeIds s) : h ∉ storeIds (run s ops) := by
  induction ops generalizing s with
  | nil => exact hdead
  | cons op ops ih =>
    exact ih (runOp s op)
      (lt_of_lt_of_le hlt (runOp_preserves s op).1)
      ((runOp_preserves s op).2.1 h hlt hdead)

end GCSpec

namespace GCSpec

theorem reachAux_seen_subset (store : List (Nat × Obj)) (todo seen : List Nat) :
    seen ⊆ reachAux store todo seen := by
  induction todo, seen using reachAux.induct store with
  | case1 seen => rw [reachAux]; exact fun x hx => hx
  | case2 seen h rest hs ih =>
    rw [reachAux, dif_pos hs]
    exact ih
  | case3 seen h rest hs hin ih =>
    rw [reachAux, dif_neg hs, dif_pos hin]
    exact fun y hy => ih (List.mem_cons_of_mem h hy)
  | case4 seen h rest hs hin ih =>
    rw [reachAux, dif_neg hs, dif_neg hin]
    exact ih

theorem mem_reachAux_of_mem_todo (store : List (Nat × Obj)) (todo seen : List Nat) :
    ∀ x ∈ todo, x ∈ store.map Prod.fst → x ∈ reachAux store todo seen := by
  induction todo, seen using reachAux.induct store with
  | case1 seen =>
    intro x hx
    exact absurd hx (List.not_mem_nil x)
  | case2 seen h rest hs ih =>
    intro x hx hxs
    rw [reachAux, dif_pos hs]
    rcases List.mem_cons.mp hx with h2 | h2
    · exact reachAux_seen_subset store rest seen (h2 ▸ hs)
    · exact ih x h2 hxs
  | case3 seen h rest hs hin ih =>
    intro x hx hxs
    rw [reachAux, dif_neg hs, dif_pos hin]
    rcases List.mem_cons.mp hx with h2 | h2
    · exact reachAux_seen_subset store _ _ (h2 ▸ List.mem_cons_self h seen)
    · exact ih x (List.mem_append_right _ h2) hxs
  | case4 seen h rest hs hin ih =>
    intro x hx hxs
    rw [reachAux, dif_neg hs, dif_neg hin]
    rcases List.mem_cons.mp hx with h2 | h2
    · exact absurd (h2 ▸ hxs) hin
    · exact ih x h2 hxs

theorem reachAux_closed (store : List (Nat × Obj)) (todo seen : List Nat) :
    (∀ x ∈ seen, ∀ o, lookupObj store x = some o →
      ∀ y ∈ o.outEdges, y ∈ store.map Prod.fst → y ∈ seen ∨ y ∈ todo) →
    ∀ x ∈ reachAux store todo seen, ∀ o, lookupObj store x = some o →
      ∀ y ∈ o.outEdges, y ∈ store.map Prod.fst → y ∈ reachAux store todo seen := by
  induction todo, seen using reachAux.induct store with
  | case1 seen =>
    intro hseen x hx o hlo y hy hys
    rw [reachAux] at hx ⊢
    rcases hseen x hx o hlo y hy hys with h1 | h1
    · exact h1
    · exact absurd h1 (List.not_mem_nil y)
  | case2 seen h rest hs ih =>
    intro hseen
    rw [reachAux, dif_pos hs]
    apply ih
    intro x hx o hlo y hy hys
    rcases hseen x hx o hlo y hy hys with h1 | h1
    · exact Or.inl h1
    · rcases List.mem_cons.mp h1 with h2 | h2
      · exact Or.inl (h2 ▸ hs)
      · exact Or.inr h2
  | case3 seen h rest hs hin ih =>
    intro hseen
    rw [reachAux, dif_neg hs, dif_pos hin]
    apply ih
    intro x hx o2 hlo y hy hys
    rcases List.mem_cons.mp hx with h2 | h2
    · subst h2
      rw [hlo, Option.getD_some]
      exact Or.inr (List.mem_append_left rest hy)
    · rcases hseen x h2 o2 hlo y hy hys with h1 | h1
      · exact Or.inl (List.mem_cons_of_mem h h1)
      · rcases List.mem_cons.mp h1 with h3 | h3
        · exact Or.inl (h3 ▸ List.mem_cons_self h seen)
        · exact Or.inr (List.mem_append_right _ h3)
  | case4 seen h rest hs hin ih =>
    intro hseen
    rw [reachAux, dif_neg hs, dif_neg hin]
    apply ih
    intro x hx o hlo y hy hys
    rcases hseen x hx o hlo y hy hys with h1 | h1
    · exact Or.inl h1
    · rcases List.mem_cons.mp h1 with h2 | h2
      · exact absurd (h2 ▸ hys) hin
      · exact Or.inr h2

theorem rootReachable_mem_reachableIds {s : GCState} {x : Nat}
    (hr : RootReachable s x) : x ∈ reachableIds s := by
  induction hr with
  | root name h hmem hstore =>
    exact mem_reachAux_of_mem_todo s.store (s.roots.map Prod.snd) [] h
      (List.mem_map.mpr ⟨(name, h), hmem, rfl⟩) hstore
  | step h t o hr2 hl ht hts ih =>
    exact reachAux_closed s.store (s.roots.map Prod.snd) []
      (fun x hx => absurd hx (List.not_mem_nil x)) h ih o hl t ht hts

theorem live_survives_collect {s : GCState} {x : Nat}
    (hmem : x ∈ storeIds s) (hlive : x ∈ reachableIds s) :
    x ∈ storeIds (collect s).2 := by
  rw [storeIds_collect]
  obtain ⟨p, hp, hpx⟩ := List.mem_map.mp hmem
  refine List.mem_map.mpr ⟨p, ?_, hpx⟩
  refine List.mem_filter.mpr ⟨hp, ?_⟩
  rw [hpx]
  simpa using hlive

end GCSpec

namespace GCSpec

/-- C1: for every object whose finalizer raises a fault during reclamation,
the fault is raised (`runFinalizer` returns the `FinalizerFault`), caught
and recorded as a diagnostic event, the invocation is logged, and it does
not abort the reclamation of that object or of any other object in the
same collection pass — the pass still reclaims every unreachable object
and counts all of them; the fault never propagates past the reclamation
step (`collect` is a total function). -/
theorem finalizer_fault_contained (s : GCState) (h : Nat) (o : Obj)
    (hmem : (h, o) ∈ s.store) (hdead : h ∉ reachableIds s)
    (hf : o.finFaults = true) :
    runFinalizer o = Except.error FinalizerFault.fault ∧
    h ∈ (collect s).2.diagnostics ∧
    h ∈ (collect s).2.finLog ∧
    h ∉ storeIds (collect s).2 ∧
    (∀ h2 o2, (h2, o2) ∈ s.store → h2 ∉ reachableIds s →
      h2 ∉ storeIds (collect s).2) ∧
    (collect s).1 = (deadObjs s).length := by
  have hdeadmem : (h, o) ∈ deadObjs s :=
    List.mem_filter.mpr ⟨hmem, by simpa using hdead⟩
  refine ⟨by simp [runFinalizer, hf], ?_, ?_, ?_, ?_, rfl⟩
  · rw [collect_diagnostics]
    refine List.mem_append_right _ ?_
    exact List.mem_map.mpr ⟨(h, o), List.mem_filter.mpr ⟨hdeadmem, by simp [hf]⟩, rfl⟩
  · rw [collect_finLog]
    exact List.mem_append_right _ (List.mem_map.mpr ⟨(h, o), hdeadmem, rfl⟩)
  · rw [storeIds_collect]
    intro hx
    exact hdead (mem_liveObjs_ids_reachable hx)
  · intro h2 o2 hm2 hd2
    rw [storeIds_collect]
    intro hx
    exact hd2 (mem_liveObjs_ids_reachable hx)

theorem finalizer_fault_contained_witness :
    0 ∈ (collect (run (initState 10) [Op.alloc "F" true, Op.alloc "G" false, Op.addEdge 0 1, Op.addEdge 1 0])).2.diagnostics ∧
    0 ∉ storeIds (collect (run (initState 10) [Op.alloc "F" true, Op.alloc "G" false, Op.addEdge 0 1, Op.addEdge 1 0])).2 := by
  have hc := finalizer_fault_contained
    (run (initState 10) [Op.alloc "F" true, Op.alloc "G" false, Op.addEdge 0 1, Op.addEdge 1 0])
    0 (Obj.mk "F" [1] 1 false true)
    (by simp [run, runOp, allocate, add_edge, lookupObj, updateObj, incrementCount, storeIds, initState, List.find?])
    (by simp [run, runOp, allocate, add_edge, reachableIds, reachAux, lookupObj, updateObj, incrementCount, storeIds, initState, List.find?, defaultObj])
    rfl
  exact ⟨hc.2.1, hc.2.2.2.1⟩

/-- C2: once a weak handle's target has been reclaimed (the handle was
issued, so it is below the fresh-handle counter, and the store no longer
holds it, by either reclamation path), `weak_resolve` returns none, and it
returns none after every further sequence of operations — once dead,
always dead, with no resurrection. -/
theorem weak_resolve_dead_monotone (s : GCState) (ops : List Op) (w : Nat)
    (hlt : w < s.nextId) (hdead : weak_resolve s w = none) :
    weak_resolve (run s ops) w = none := by
  have hd2 : w ∉ storeIds s := by
    intro hmem
    unfold weak_resolve at hdead
    rw [if_pos hmem] at hdead
    cases hdead
  have hgone := dead_stays_dead_run s ops w hlt hd2
  unfold weak_resolve
  rw [if_neg hgone]

theorem weak_resolve_dead_monotone_witness :
    weak_resolve (run (run (initState 10) [Op.alloc "W" false, Op.alloc "X" false, Op.addEdge 0 1, Op.addEdge 1 0, Op.collectPass]) [Op.collectPass]) 0 = none := by
  apply weak_resolve_dead_monotone
  · show 0 < (run (initState 10) [Op.alloc "W" false, Op.alloc "X" false, Op.addEdge 0 1, Op.addEdge 1 0, Op.collectPass]).nextId
    simp [run, runOp, allocate, add_edge, collect, deadObjs, liveObjs, reachableIds, reachAux, lookupObj, updateObj, incrementCount, storeIds, initState, List.find?, finalizeAll, finalizeObj, runFinalizer, countStrongRefs, defaultObj]
  · show weak_resolve (run (initState 10) [Op.alloc "W" false, Op.alloc "X" false, Op.addEdge 0 1, Op.addEdge 1 0, Op.collectPass]) 0 = none
    simp [weak_resolve, run, runOp, allocate, add_edge, collect, deadObjs, liveObjs, reachableIds, reachAux, lookupObj, updateObj, incrementCount, storeIds, initState, List.find?, finalizeAll, finalizeObj, runFinalizer, countStrongRefs, defaultObj]

/-- C3: a mutual two-object cycle (A references B and B references A) with
no external root is reclaimed by a single collection pass, and the pass's
returned reclaim count is exactly 2 — for any payloads and any finalizer
behaviours of the two objects. -/
theorem mutual_cycle_one_pass (pa pb : String) (fa fb : Bool) :
    (collect (run (initState 10) [Op.alloc pa fa, Op.alloc pb fb, Op.addEdge 0 1, Op.addEdge 1 0])).1 = 2 ∧
    storeIds (collect (run (initState 10) [Op.alloc pa fa, Op.alloc pb fb, Op.addEdge 0 1, Op.addEdge 1 0])).2 = [] := by
  constructor <;>
    simp [run, runOp, allocate, add_edge, collect, deadObjs, liveObjs, reachableIds, reachAux, lookupObj, updateObj, incrementCount, storeIds, initState, List.find?, finalizeAll, finalizeObj, runFinalizer, countStrongRefs, defaultObj]

/-- C4: on a mutual cycle with no other references, removing a cycle edge
before any collection causes both objects to be reclaimed by the immediate
acyclic reference-count path (both finalized, store empty), with no Cycle
Collector pass in the operation sequence. -/
theorem broken_cycle_immediate (pa pb : String) (fa fb : Bool) :
    storeIds (run (initState 10) [Op.alloc pa fa, Op.alloc pb fb, Op.addEdge 0 1, Op.addEdge 1 0, Op.removeEdge 0 1]) = [] ∧
    (run (initState 10) [Op.alloc pa fa, Op.alloc pb fb, Op.addEdge 0 1, Op.addEdge 1 0, Op.removeEdge 0 1]).finLog = [1, 0] := by
  constructor <;>
    simp [run, runOp, allocate, add_edge, remove_edge, dropRef, reclaim, cascadeStep, lookupObj, updateObj, removeObj, incrementCount, decAll, decCount, isZero, finalizeObj, runFinalizer, storeIds, initState, List.find?, defaultObj]

/-- C5: over the whole lifetime of the program (any operation sequence from
the initial state, at any capacity) the finalizer-invocation log never
repeats a handle — each object is finalized at most once, ever; and
reclaiming a self-referential single-object cycle in one pass invokes its
finalizer exactly once and empties the store. -/
theorem finalizer_at_most_once (cap : Nat) (ops : List Op) (pa : String) :
    (run (initState cap) ops).finLog.Nodup ∧
    (run (initState 10) [Op.alloc pa false, Op.addEdge 0 0, Op.collectPass]).finLog = [0] ∧
    storeIds (run (initState 10) [Op.alloc pa false, Op.addEdge 0 0, Op.collectPass]) = [] := by
  refine ⟨(WF_run (initState cap) ops (WF_initState cap)).finNodup, ?_, ?_⟩ <;>
    simp [run, runOp, allocate, add_edge, collect, deadObjs, liveObjs, reachableIds, reachAux, lookupObj, updateObj, incrementCount, storeIds, initState, List.find?, finalizeAll, finalizeObj, runFinalizer, countStrongRefs, defaultObj]

/-- C6: in every state (hence after every sequence of operations), no
object reachable from the Root Set following strong edges is reclaimed by a
collection pass: it is still in the store afterwards and a weak reference
to it still resolves to the live handle. -/
theorem collect_keeps_root_reachable (s : GCState) (h : Nat)
    (hr : RootReachable s h) :
    h ∈ storeIds (collect s).2 ∧ weak_resolve (collect s).2 h = some h := by
  have hmem : h ∈ storeIds s := by
    cases hr with
    | root name2 h2 hmem hstore => exact hstore
    | step h2 t2 o hr2 hl ht hts => exact hts
  have hlive := rootReachable_mem_reachableIds hr
  have hsur := live_survives_collect hmem hlive
  exact ⟨hsur, by unfold weak_resolve; rw [if_pos hsur]⟩

theorem collect_keeps_root_reachable_witness :
    weak_resolve (collect (run (initState 10) [Op.alloc "A" false, Op.rootBind "r" 0])).2 0 = some 0 := by
  refine (collect_keeps_root_reachable _ 0 ?_).2
  apply RootReachable.root "r"
  · show ("r", 0) ∈ (run (initState 10) [Op.alloc "A" false, Op.rootBind "r" 0]).roots
    simp [run, runOp, allocate, root_bind, root_lookup, incrementCount, updateObj, storeIds, initState, List.find?]
  · show 0 ∈ storeIds (run (initState 10) [Op.alloc "A" false, Op.rootBind "r" 0])
    simp [run, runOp, allocate, root_bind, root_lookup, incrementCount, updateObj, storeIds, initState, List.find?]

end GCSpec

namespace PyGC

/-- C7 counterexample: the invocation `--stats --saveall --no-debug`
carries the invalid flag combination (inspection retention with diagnostics
disabled) yet exits with status 0, because the `--stats` branch of `main`
returns before the validation runs — refuting the claim that every
invocation with an invalid flag combination is rejected with a non-zero
exit. -/
theorem saveall_no_debug_with_stats_exits_zero :
    (Args.mk 1 true true false false true ColorChoice.auto).saveall = true ∧
    (Args.mk 1 true true false false true ColorChoice.auto).no_debug = true ∧
    mainExitCode (Args.mk 1 true true false false true ColorChoice.auto) = 0 :=
  ⟨rfl, rfl, rfl⟩

/-- C7 amended: unless `--stats` is given (whose branch returns before
validation and exits 0), an invocation with the invalid combination
`--saveall` with `--no-debug` is rejected with a usage error and a non-zero
exit status, as is `--cycles` below 1; every run that passes validation,
and every `--stats` run, exits with status zero. -/
theorem mainExitCode_validation (a : Args) :
    (a.stats = false → a.saveall = true → a.no_debug = true → mainExitCode a ≠ 0) ∧
    (a.stats = false → a.cycles < 1 → mainExitCode a ≠ 0) ∧
    (a.stats = false → 1 ≤ a.cycles → ¬(a.saveall = true ∧ a.no_debug = true) →
      mainExitCode a = 0) ∧
    (a.stats = true → mainExitCode a = 0) := by
  obtain ⟨c, sa, nd, bc, wd, st, col⟩ := a
  cases st <;> cases sa <;> cases nd <;> by_cases hc : c < 1 <;>
    simp [mainExitCode, hc]

theorem mainExitCode_validation_witness :
    mainExitCode (Args.mk 1 true true false false false ColorChoice.auto) ≠ 0 :=
  (mainExitCode_validation (Args.mk 1 true true false false false ColorChoice.auto)).1
    rfl rfl rfl

/-- C8: the CLI registers each of the six flags the specification lists — a
number of cycles to create (takes a value), a flag to pre-break cycles, a
flag to run the weak-reference liveness demo, a flag to print collector
statistics, a flag to control colorized output (takes a value), and a flag
to retain unreachable-but-unreclaimable objects for inspection. -/
theorem cliFlags_cover_spec_flags :
    FlagSpec.mk "--cycles" true ∈ cliFlags ∧
    FlagSpec.mk "--break-cycles" false ∈ cliFlags ∧
    FlagSpec.mk "--weakref-demo" false ∈ cliFlags ∧
    FlagSpec.mk "--stats" false ∈ cliFlags ∧
    FlagSpec.mk "--color" true ∈ cliFlags ∧
    FlagSpec.mk "--saveall" false ∈ cliFlags := by
  refine ⟨?_, ?_, ?_, ?_, ?_, ?_⟩ <;> simp [cliFlags]

/-- C9: for every requested debug-flag value, every behaviour of the
enclosed body (including raising an exception, and including the body
changing the flags itself), and every initial debug configuration,
`temporary_gc_debug` leaves the collector's debug flags exactly as they
were before the context, and propagates the body's outcome. -/
theorem temporary_gc_debug_restores {ε : Type} (flags : Nat)
    (body : Nat → Except ε Unit × Nat) (debugFlags : Nat) :
    (temporary_gc_debug flags body debugFlags).2 = debugFlags ∧
    (temporary_gc_debug flags body debugFlags).1 = (body flags).1 :=
  ⟨rfl, rfl⟩

/-- C10: `--color=always` enables colorized output unconditionally, even
when the NO_COLOR environment variable is set; the NO_COLOR check disables
color only on the other choices — under `auto` it forces color off, under
`never` color is off regardless, and under `auto` without NO_COLOR color
follows the tty test. -/
theorem color_always_wins_over_no_color :
    (∀ noColorEnv tty, computeColorEnabled ColorChoice.always noColorEnv tty = true) ∧
    (∀ tty, computeColorEnabled ColorChoice.auto true tty = false) ∧
    (∀ noColorEnv tty, computeColorEnabled ColorChoice.never noColorEnv tty = false) ∧
    (∀ tty, computeColorEnabled ColorChoice.auto false tty = tty) := by
  refine ⟨?_, ?_, ?_, ?_⟩ <;> decide

end PyGC
